import Mathlib

/-!
Shallow embedding of `crates/papyrus_network/src/bin/streamed_data_benchmark.rs`.

The benchmark binary drives a libp2p swarm: it accumulates connecting peers,
opens a batch of outbound query sessions once enough peers have connected,
feeds preprepared payloads into inbound sessions, and measures per-session
throughput.  We embed the orchestration logic as pure Lean functions:

* `Instant::now()` becomes an explicit time parameter (`Time := ℚ`);
* `HashMap` becomes an association list (`List (key × value)`); iteration
  order of a `HashMap` is arbitrary, and the embedding fixes the list order
  as one such arbitrary order;
* panics (`expect` / `unwrap` / indexing misses) become `Option.none`;
* calls into the swarm collaborator (`send_query`, `send_data`,
  `close_inbound_session`, `dial`) become ghost logs recorded in the state;
  `send_query`'s freshly allocated `OutboundSessionId` is modelled by a
  counter;
* `f64` values in `pretty_size` become rationals: the function only ever
  divides by 1024, which is exact in binary floating point for the
  magnitudes involved, so ℚ is a faithful model of the division chain.
-/

set_option autoImplicit false

namespace StreamedDataBenchmark

abbrev PeerId := ℕ
abbrev OutboundSessionId := ℕ
abbrev InboundSessionId := ℕ
abbrev Time := ℚ
abbrev Payload := List ℕ

/-- The CLI arguments consumed by the orchestration core
(`Args` in the source; addresses and the idle timeout are handled by the
excluded transport layer, except that the presence of `dial_address` drives
`dial_if_requested`). -/
structure Args where
  dial_address_present : Bool
  num_expected_inbound_sessions : ℕ
  num_expected_connections : ℕ
  num_queries_per_connection : ℕ
  num_messages_per_session : ℕ
  message_size : ℕ
  deriving DecidableEq, Repr

/-- Protobuf `InboundSessionStart` message. -/
structure InboundSessionStart where
  num_messages : ℕ
  message_size : ℕ
  deriving DecidableEq, Repr

/-- Protobuf `stress_test_message::Msg`: either a stream-start control
message or a content payload. -/
inductive Msg where
  | start (s : InboundSessionStart)
  | content (p : Payload)
  deriving DecidableEq, Repr

/-! ### `pretty_size` -/

/-- Two-decimal fixed-point rendering of a nonnegative rational, modelling
Rust's `format!("{:.2}", size)` on the (exactly representable) values the
benchmark prints. -/
def fmtFixed2 (q : ℚ) : String :=
  let n : ℤ := round (q * 100)
  let ip : ℤ := n / 100
  let fp : ℕ := (n % 100).toNat
  toString ip ++ "." ++ (if fp < 10 then "0" else "") ++ toString fp

/-- The loop body of `pretty_size`: walk the unit list, dividing by 1024
while the size is not below 1024; fall through to `"TB"`. -/
def prettySizeAux : List String → ℚ → String
  | [], size => fmtFixed2 size ++ " " ++ "TB"
  | u :: rest, size =>
    if size < 1024 then fmtFixed2 size ++ " " ++ u
    else prettySizeAux rest (size / 1024)

/-- `pretty_size` from the source: units `["B", "KB", "MB", "GB"]`, then
`"TB"`. -/
def pretty_size (size : ℚ) : String :=
  prettySizeAux ["B", "KB", "MB", "GB"] size

/-- The unit printed after `k` divisions by 1024. -/
def unitName (k : ℕ) : String := ["B", "KB", "MB", "GB", "TB"].getD k "TB"

/-! ### `OutboundSessionMeasurement` -/

/-- Per-outbound-session timing state (`OutboundSessionMeasurement` in the
source). -/
structure OutboundSessionMeasurement where
  start_time : Time
  first_message_time : Option Time
  num_messages : Option ℕ
  message_size : Option ℕ
  deriving DecidableEq, Repr

namespace OutboundSessionMeasurement

/-- `OutboundSessionMeasurement::new`: `Instant::now()` is the explicit
time argument. -/
def new (now : Time) : OutboundSessionMeasurement :=
  { start_time := now
    first_message_time := none
    num_messages := none
    message_size := none }

/-- `OutboundSessionMeasurement::report_first_message`: unconditionally
records the current time and the two counters of the stream-start
message. -/
def report_first_message (m : OutboundSessionMeasurement)
    (inbound_session_start : InboundSessionStart) (now : Time) :
    OutboundSessionMeasurement :=
  { m with
    first_message_time := some now
    num_messages := some inbound_session_start.num_messages
    message_size := some inbound_session_start.message_size }

end OutboundSessionMeasurement

/-- What `OutboundSessionMeasurement::print` writes to stdout, as data:
either the short "finished with no messages" message, a panic (an `expect`
on `num_messages` / `message_size` failed), or the full statistics block.
Divisions are ℚ divisions; the elapsed times are `now - start` for the
explicit `now`. -/
inductive SessionReport where
  | noMessages
  | panicked
  | stats (num_messages message_size : ℕ) (elapsed messages_elapsed : ℚ)
      (total_messages_rate total_bytes_rate : ℚ)
      (sending_messages_rate sending_bytes_rate : ℚ)
  deriving DecidableEq, Repr

/-- `OutboundSessionMeasurement::print`: if `first_message_time` is unset,
report the no-messages outcome and stop; otherwise compute both elapsed
intervals and the four throughput figures. -/
def OutboundSessionMeasurement.printReport (m : OutboundSessionMeasurement)
    (now : Time) : SessionReport :=
  match m.first_message_time with
  | none => .noMessages
  | some fmt =>
    match m.num_messages, m.message_size with
    | some nm, some ms =>
      let messages_elapsed : ℚ := now - fmt
      let elapsed : ℚ := now - m.start_time
      .stats nm ms elapsed messages_elapsed
        ((nm : ℚ) / elapsed) (((ms * nm : ℕ) : ℚ) / elapsed)
        ((nm : ℚ) / messages_elapsed) (((ms * nm : ℕ) : ℚ) / messages_elapsed)
    | _, _ => .panicked

/-! ### HashMap model -/

/-- `HashMap::insert` on the association-list model: replace any existing
binding of the key. -/
def hmInsert {β : Type} (l : List (ℕ × β)) (k : ℕ) (v : β) : List (ℕ × β) :=
  (k, v) :: l.filter (fun e => e.1 ≠ k)

/-- `HashMap::get` / indexing on the association-list model. -/
def hmFind {β : Type} (l : List (ℕ × β)) (k : ℕ) : Option β :=
  (l.find? (fun e => e.1 = k)).map Prod.snd

/-! ### Connection gate -/

/-- One created outbound session: its allocated id, the peer it was sent
to, and the `number` field of the `BasicMessage` query. -/
structure CreatedSession where
  sessionId : OutboundSessionId
  peer : PeerId
  number : ℕ
  deriving DecidableEq, Repr

/-- The state touched by `create_outbound_sessions_if_all_peers_connected`:
the measurement table, the fresh-session-id allocator of the behaviour's
`send_query`, and the ghost log of issued queries. -/
structure GateState where
  measurements : List (OutboundSessionId × OutboundSessionMeasurement)
  nextSessionId : ℕ
  created : List CreatedSession
  deriving DecidableEq, Repr

/-- The body of the inner `for number in 0..num_queries_per_connection`
loop: `send_query(BasicMessage { number }, peer)` allocates a fresh
outbound session id, and a fresh measurement is inserted under it. -/
def queryStep (peer : PeerId) (now : Time) (st : GateState) (number : ℕ) :
    GateState :=
  { measurements :=
      hmInsert st.measurements st.nextSessionId
        (OutboundSessionMeasurement.new now)
    nextSessionId := st.nextSessionId + 1
    created := st.created ++ [⟨st.nextSessionId, peer, number⟩] }

/-- The inner `for number in 0..num_queries_per_connection` loop. -/
def sendQueriesToPeer (numQueries : ℕ) (peer : PeerId) (now : Time)
    (st : GateState) : GateState :=
  (List.range numQueries).foldl (queryStep peer now) st

/-- The outer `for peer_id in peers_pending_outbound_session` loop. -/
def sendQueriesToAllPeers (numQueries : ℕ) (now : Time)
    (peers : List PeerId) (st : GateState) : GateState :=
  peers.foldl (fun st p => sendQueriesToPeer numQueries p now st) st

/-- `create_outbound_sessions_if_all_peers_connected`: push the peer onto
the pending list; once the list length reaches the configured threshold,
issue `num_queries_per_connection` queries for every pending peer.  The
pending list itself is only pushed to, never cleared. -/
def create_outbound_sessions_if_all_peers_connected (args : Args)
    (peer_id : PeerId)
    (peers_pending_outbound_session : List PeerId)
    (st : GateState) (now : Time) : List PeerId × GateState :=
  let pending := peers_pending_outbound_session ++ [peer_id]
  if args.num_expected_connections ≤ pending.length then
    (pending, sendQueriesToAllPeers args.num_queries_per_connection now pending st)
  else
    (pending, st)

/-! ### Inbound feeder (`send_data_to_inbound_sessions`) -/

/-- A call issued to the swarm for an inbound session: the stream-start
control message, one content payload, or the session close. -/
inductive InboundSend where
  | startMsg (s : InboundSessionStart)
  | contentMsg (p : Payload)
  | closeSession
  deriving DecidableEq, Repr

/-- One pass of the `retain` closure over the feed table, in table order:
for each session, `messages.pop()` takes the **last** buffered payload; if
one exists it is sent and the entry is retained (with the payload removed),
otherwise the session is closed and the entry dropped.  Returns the log of
issued calls and the retained table. -/
def drainRound :
    List (InboundSessionId × List Payload) →
    List (InboundSessionId × InboundSend) ×
      List (InboundSessionId × List Payload)
  | [] => ([], [])
  | (sid, messages) :: rest =>
    match messages.getLast? with
    | some message =>
      ((sid, .contentMsg message) :: (drainRound rest).1,
        (sid, messages.dropLast) :: (drainRound rest).2)
    | none => ((sid, .closeSession) :: (drainRound rest).1, (drainRound rest).2)

/-- Termination measure of the `while !inbound_session_to_messages.is_empty()`
loop: every retained entry loses a payload each round and every emptied
entry is dropped. -/
def tableMeasure (t : List (InboundSessionId × List Payload)) : ℕ :=
  (t.map (fun e => e.2.length + 1)).sum

/-- The `while !inbound_session_to_messages.is_empty()` loop: rounds of
`retain` until the feed table is empty, collecting all issued calls in
order. -/
def drainLoop (t : List (InboundSessionId × List Payload)) :
    List (InboundSessionId × InboundSend) :=
  if h : t = [] then []
  else (drainRound t).1 ++ drainLoop (drainRound t).2
termination_by tableMeasure t
decreasing_by
  have hle : ∀ t' : List (InboundSessionId × List Payload),
      tableMeasure (drainRound t').2 ≤ tableMeasure t' := by
    intro t'
    induction t' with
    | nil => simp [drainRound, tableMeasure]
    | cons e rest ih =>
      obtain ⟨sid, messages⟩ := e
      simp only [drainRound]
      cases hlast : messages.getLast? with
      | some message =>
        simp only [tableMeasure, List.map_cons, List.sum_cons]
        have hne : messages ≠ [] := by
          intro hnil; rw [hnil] at hlast; simp at hlast
        have hpos : 0 < messages.length := List.length_pos.mpr hne
        have hdl : messages.dropLast.length = messages.length - 1 :=
          List.length_dropLast messages
        unfold tableMeasure at ih
        omega
      | none =>
        simp only [tableMeasure, List.map_cons, List.sum_cons]
        unfold tableMeasure at ih
        omega
  cases t with
  | nil => exact absurd rfl h
  | cons e rest =>
    obtain ⟨sid, messages⟩ := e
    have hrest := hle rest
    simp only [drainRound]
    cases hlast : messages.getLast? with
    | some message =>
      have hne : messages ≠ [] := by
        intro hnil; rw [hnil] at hlast; simp at hlast
      have hpos : 0 < messages.length := List.length_pos.mpr hne
      have hdl : messages.dropLast.length = messages.length - 1 :=
        List.length_dropLast messages
      simp only [tableMeasure, List.map_cons, List.sum_cons]
      unfold tableMeasure at hrest
      omega
    | none =>
      simp only [tableMeasure, List.map_cons, List.sum_cons]
      unfold tableMeasure at hrest
      omega

/-- `send_data_to_inbound_sessions`: first send the stream-start message
(with the configured counters) to every session in the table, then run the
drain loop.  Returns the ordered log of calls issued to the swarm; the feed
table is empty afterwards. -/
def send_data_to_inbound_sessions (args : Args)
    (inbound_session_to_messages : List (InboundSessionId × List Payload)) :
    List (InboundSessionId × InboundSend) :=
  inbound_session_to_messages.map
    (fun e =>
      (e.1, InboundSend.startMsg
        ⟨args.num_messages_per_session, args.message_size⟩)) ++
    drainLoop inbound_session_to_messages

/-! ### Event dispatcher (`main`'s loop) -/

/-- The swarm events matched by `main`'s `match event` arms.  `otherEvent`
stands for any event hitting the catch-all `panic!` arm. -/
inductive SwarmEvent where
  | connectionEstablished (peer_id : PeerId)
  | newInboundSession (inbound_session_id : InboundSessionId)
  | sessionFinishedOutbound (outbound_session_id : OutboundSessionId)
  | sessionFinishedInbound (inbound_session_id : InboundSessionId)
  | receivedData (outbound_session_id : OutboundSessionId) (msg : Option Msg)
  | outgoingConnectionError
  | sessionFailedConnectionClosed
  | sessionFailedIOError
  | newListenAddr
  | incomingConnection
  | connectionClosed
  | otherEvent
  deriving DecidableEq, Repr

/-- One entry of the event stream: the event, the value `Instant::now()`
takes while its handler runs, and the peer count `swarm.network_info()`
reports after the handler. -/
structure TraceEntry where
  event : SwarmEvent
  now : Time
  numPeersAfter : ℕ
  deriving DecidableEq, Repr

/-- The mutable state of `main`, plus ghost logs of the calls issued to the
swarm (`inboundSendLog`, `created` inside `gate`) and of the printed
per-session reports. -/
structure BenchState where
  gate : GateState
  inbound_session_to_messages : List (InboundSessionId × List Payload)
  connected_in_the_past : Bool
  preprepared_messages : List (List Payload)
  peers_pending_outbound_session : List PeerId
  inboundSendLog : List (InboundSessionId × InboundSend)
  reportLog : List SessionReport
  dialCount : ℕ
  deriving DecidableEq, Repr

/-- The state right before `main`'s loop: the preprepared message batches
(one batch of `num_messages_per_session` filler payloads per expected
inbound session), everything else empty, plus the initial
`dial_if_requested` call. -/
def initState (args : Args) : BenchState :=
  { gate := ⟨[], 0, []⟩
    inbound_session_to_messages := []
    connected_in_the_past := false
    preprepared_messages :=
      (List.range args.num_expected_inbound_sessions).map
        (fun _ =>
          (List.range args.num_messages_per_session).map
            (fun _ => List.replicate args.message_size 1))
    peers_pending_outbound_session := []
    inboundSendLog := []
    reportLog := []
    dialCount := if args.dial_address_present then 1 else 0 }

/-- One iteration of `main`'s `match event` dispatch.  `none` models a
panic (an `expect` or indexing failure, or the catch-all arm). -/
def step (args : Args) (s : BenchState) (e : TraceEntry) :
    Option BenchState :=
  match e.event with
  | .connectionEstablished peer_id =>
    let r :=
      create_outbound_sessions_if_all_peers_connected args peer_id
        s.peers_pending_outbound_session s.gate e.now
    some { s with
      connected_in_the_past := true
      peers_pending_outbound_session := r.1
      gate := r.2 }
  | .newInboundSession inbound_session_id =>
    match s.preprepared_messages.getLast? with
    | none => none
    | some batch =>
      let table :=
        hmInsert s.inbound_session_to_messages inbound_session_id batch
      let remaining := s.preprepared_messages.dropLast
      if remaining.isEmpty then
        some { s with
          preprepared_messages := remaining
          inbound_session_to_messages := []
          inboundSendLog :=
            s.inboundSendLog ++ send_data_to_inbound_sessions args table }
      else
        some { s with
          preprepared_messages := remaining
          inbound_session_to_messages := table }
  | .sessionFinishedOutbound outbound_session_id =>
    match hmFind s.gate.measurements outbound_session_id with
    | none => none
    | some m =>
      some { s with reportLog := s.reportLog ++ [m.printReport e.now] }
  | .receivedData outbound_session_id msg =>
    match msg with
    | some (.start inbound_session_start) =>
      match hmFind s.gate.measurements outbound_session_id with
      | none => none
      | some m =>
        some { s with
          gate := { s.gate with
            measurements :=
              hmInsert s.gate.measurements outbound_session_id
                (m.report_first_message inbound_session_start e.now) } }
    | _ => some s
  | .outgoingConnectionError =>
    some { s with
      dialCount := s.dialCount + if args.dial_address_present then 1 else 0 }
  | .sessionFailedConnectionClosed => some s
  | .sessionFailedIOError => some s
  | .sessionFinishedInbound _ => some s
  | .newListenAddr => some s
  | .incomingConnection => some s
  | .connectionClosed => some s
  | .otherEvent => none

/-- Run the handlers of a list of events in order, without the
break check (the states this reaches are exactly the states `main` reaches
on the prefix of events it handles). -/
def runEvents (args : Args) (s : BenchState) :
    List TraceEntry → Option BenchState
  | [] => some s
  | e :: tr =>
    match step args s e with
    | none => none
    | some s' => runEvents args s' tr

/-- Outcome of `main`'s loop on a finite event stream: the stream was
exhausted, the break fired after handling the event at the recorded index,
or a handler panicked at the recorded index. -/
inductive RunOutcome where
  | pending (s : BenchState)
  | exited (i : ℕ) (s : BenchState)
  | panicked (i : ℕ)
  deriving DecidableEq, Repr

/-- `main`'s loop with its termination check: after each handled event,
break as soon as `connected_in_the_past` holds and the reported peer count
is zero. -/
def runLoop (args : Args) (s : BenchState) (i : ℕ) :
    List TraceEntry → RunOutcome
  | [] => .pending s
  | e :: tr =>
    match step args s e with
    | none => .panicked i
    | some s' =>
      if s'.connected_in_the_past ∧ e.numPeersAfter = 0 then .exited i s'
      else runLoop args s' (i + 1) tr

/-! ### Derived specification functions -/

/-- The sessions the threshold batch is expected to create: for each peer
in order, one query per sequence number in `0..numQueries`, with
consecutively allocated session ids starting at `first`. -/
def expectedCreated : List PeerId → ℕ → ℕ → List CreatedSession
  | [], _, _ => []
  | p :: ps, numQueries, first =>
    (List.range numQueries).map (fun n => ⟨first + n, p, n⟩) ++
      expectedCreated ps numQueries (first + numQueries)

/-- Whether a trace entry is a connection-established event. -/
def isConnectionEstablished (e : TraceEntry) : Bool :=
  match e.event with
  | .connectionEstablished _ => true
  | _ => false

/-- Number of connection-established events in a trace. -/
def countConnectionEstablished (tr : List TraceEntry) : ℕ :=
  (tr.filter isConnectionEstablished).length

/-- The inbound session ids announced by `NewInboundSession` events of a
trace, in order. -/
def inboundIds (tr : List TraceEntry) : List InboundSessionId :=
  tr.filterMap
    (fun e =>
      match e.event with
      | .newInboundSession i => some i
      | _ => none)

/-- The calls of a send log that target one given inbound session. -/
def projOn (id : InboundSessionId)
    (log : List (InboundSessionId × InboundSend)) : List InboundSend :=
  (log.filter (fun a => a.1 = id)).map Prod.snd

/-- The C3 invariant: the three optional fields of a measurement are all
unset or all set. -/
def measurementConsistent (m : OutboundSessionMeasurement) : Prop :=
  (m.first_message_time.isSome ↔ m.num_messages.isSome) ∧
  (m.num_messages.isSome ↔ m.message_size.isSome)

/-- The loop-break condition of `main` evaluated at trace index `i`, for a
run whose `connected_in_the_past` flag started as `c0`: some
connection-established event has been handled at an index `≤ i` (or the
flag was already set), and the peer count reported after entry `i` is
zero. -/
def breakCond (c0 : Bool) (tr : List TraceEntry) (i : ℕ) : Prop :=
  (c0 || (tr.take (i + 1)).any isConnectionEstablished) = true ∧
  ∃ e, tr[i]? = some e ∧ e.numPeersAfter = 0

/-! ## Theorems -/

theorem find?_filter_ne {β : Type} (l : List (ℕ × β)) (k k' : ℕ)
    (h : k' ≠ k) :
    (l.filter (fun e => e.1 ≠ k)).find? (fun e => e.1 = k') =
      l.find? (fun e => e.1 = k') := by
  rw [List.find?_filter]
  congr 1
  funext a
  by_cases hk : a.1 = k'
  · have hak : a.1 ≠ k := by rw [hk]; exact h
    simp [hk, hak, h]
  · simp [hk]

theorem hmFind_insert {β : Type} (l : List (ℕ × β)) (k k' : ℕ) (v : β) :
    hmFind (hmInsert l k v) k' = if k' = k then some v else hmFind l k' := by
  by_cases h : k' = k
  · subst h
    rw [if_pos rfl]
    show (((k', v) :: l.filter (fun e => e.1 ≠ k')).find?
        (fun e => e.1 = k')).map Prod.snd = some v
    rw [List.find?_cons_of_pos _ (by simp)]
    rfl
  · rw [if_neg h]
    show (((k, v) :: l.filter (fun e => e.1 ≠ k)).find?
        (fun e => e.1 = k')).map Prod.snd =
      (l.find? (fun e => e.1 = k')).map Prod.snd
    rw [List.find?_cons_of_neg _ (by simpa using fun he => h he.symm),
      find?_filter_ne l k k' h]

theorem hmInsert_mem {β : Type} {l : List (ℕ × β)} {k : ℕ} {v : β}
    {e : ℕ × β} (h : e ∈ hmInsert l k v) : e = (k, v) ∨ e ∈ l := by
  rw [hmInsert] at h
  rcases List.mem_cons.mp h with he | he
  · exact Or.inl he
  · exact Or.inr (List.mem_of_mem_filter he)

/-- Computation rule for `fmtFixed2` once the rounded centi-value is
known: everything left is integer and string computation. -/
theorem fmtFixed2_eq (q : ℚ) (n : ℤ) (h : round (q * 100) = n) :
    fmtFixed2 q =
      toString (n / 100) ++ "." ++
        (if (n % 100).toNat < 10 then "0" else "") ++
        toString (n % 100).toNat := by
  rw [fmtFixed2, h]

theorem sendQueriesToPeer_succ (n : ℕ) (p : PeerId) (t : Time)
    (st : GateState) :
    sendQueriesToPeer (n + 1) p t st =
      queryStep p t (sendQueriesToPeer n p t st) n := by
  rw [sendQueriesToPeer, sendQueriesToPeer, List.range_succ,
    List.foldl_append, List.foldl_cons, List.foldl_nil]

theorem sendQueriesToPeer_spec (p : PeerId) (t : Time) :
    ∀ (n : ℕ) (st : GateState),
      (sendQueriesToPeer n p t st).nextSessionId = st.nextSessionId + n ∧
      (sendQueriesToPeer n p t st).created =
        st.created ++
          (List.range n).map (fun j => ⟨st.nextSessionId + j, p, j⟩) ∧
      ∀ k : ℕ,
        hmFind (sendQueriesToPeer n p t st).measurements k =
          if st.nextSessionId ≤ k ∧ k < st.nextSessionId + n
          then some (OutboundSessionMeasurement.new t)
          else hmFind st.measurements k := by
  intro n
  induction n with
  | zero =>
    intro st
    refine ⟨by simp [sendQueriesToPeer], by simp [sendQueriesToPeer], ?_⟩
    intro k
    rw [if_neg (by omega)]
    simp [sendQueriesToPeer]
  | succ n ih =>
    intro st
    obtain ⟨hnext, hcreated, hfind⟩ := ih st
    refine ⟨?_, ?_, ?_⟩
    · rw [sendQueriesToPeer_succ]
      show (sendQueriesToPeer n p t st).nextSessionId + 1 = _
      omega
    · rw [sendQueriesToPeer_succ]
      show (sendQueriesToPeer n p t st).created ++
          [⟨(sendQueriesToPeer n p t st).nextSessionId, p, n⟩] = _
      rw [hcreated, hnext, List.range_succ, List.map_append,
        List.append_assoc]
      rfl
    · intro k
      rw [sendQueriesToPeer_succ]
      show hmFind
          (hmInsert (sendQueriesToPeer n p t st).measurements
            (sendQueriesToPeer n p t st).nextSessionId
            (OutboundSessionMeasurement.new t)) k = _
      rw [hmFind_insert, hnext, hfind k]
      split_ifs <;> first | rfl | omega

theorem expectedCreated_length :
    ∀ (ps : List PeerId) (nq first : ℕ),
      (expectedCreated ps nq first).length = ps.length * nq := by
  intro ps
  induction ps with
  | nil => intro nq first; simp [expectedCreated]
  | cons p ps ih =>
    intro nq first
    simp [expectedCreated, ih]
    ring

theorem expectedCreated_sessionId_bounds :
    ∀ (ps : List PeerId) (nq first : ℕ) (c : CreatedSession),
      c ∈ expectedCreated ps nq first →
      first ≤ c.sessionId ∧ c.sessionId < first + ps.length * nq := by
  intro ps
  induction ps with
  | nil => intro nq first c hc; simp [expectedCreated] at hc
  | cons p ps ih =>
    intro nq first c hc
    rcases List.mem_append.mp hc with hc | hc
    · obtain ⟨j, hj, rfl⟩ := List.mem_map.mp hc
      have := List.mem_range.mp hj
      constructor
      · simp
      · show first + j < first + (ps.length + 1) * nq
        have : (ps.length + 1) * nq = ps.length * nq + nq := by ring
        omega
    · obtain ⟨ha, hb⟩ := ih nq (first + nq) c hc
      have hstep : (p :: ps).length * nq = ps.length * nq + nq := by
        simp only [List.length_cons]
        ring
      refine ⟨le_trans (Nat.le_add_right first nq) ha, ?_⟩
      calc c.sessionId < first + nq + ps.length * nq := hb
        _ = first + (p :: ps).length * nq := by rw [hstep]; ring

theorem sendQueriesToAllPeers_cons (nq : ℕ) (t : Time) (p : PeerId)
    (ps : List PeerId) (st : GateState) :
    sendQueriesToAllPeers nq t (p :: ps) st =
      sendQueriesToAllPeers nq t ps (sendQueriesToPeer nq p t st) := by
  rw [sendQueriesToAllPeers, sendQueriesToAllPeers, List.foldl_cons]

theorem sendQueriesToAllPeers_spec (nq : ℕ) (t : Time) :
    ∀ (peers : List PeerId) (st : GateState),
      (sendQueriesToAllPeers nq t peers st).nextSessionId =
        st.nextSessionId + peers.length * nq ∧
      (sendQueriesToAllPeers nq t peers st).created =
        st.created ++ expectedCreated peers nq st.nextSessionId ∧
      (∀ k : ℕ, k < st.nextSessionId →
        hmFind (sendQueriesToAllPeers nq t peers st).measurements k =
          hmFind st.measurements k) ∧
      ∀ c ∈ expectedCreated peers nq st.nextSessionId,
        hmFind (sendQueriesToAllPeers nq t peers st).measurements
            c.sessionId =
          some (OutboundSessionMeasurement.new t) := by
  intro peers
  induction peers with
  | nil =>
    intro st
    refine ⟨by simp [sendQueriesToAllPeers], ?_, ?_, ?_⟩
    · simp [sendQueriesToAllPeers, expectedCreated]
    · intro k _; simp [sendQueriesToAllPeers]
    · intro c hc; simp [expectedCreated] at hc
  | cons p ps ih =>
    intro st
    obtain ⟨pnext, pcreated, pfind⟩ := sendQueriesToPeer_spec p t nq st
    obtain ⟨inext, icreated, ifind, inew⟩ := ih (sendQueriesToPeer nq p t st)
    rw [sendQueriesToAllPeers_cons]
    have hmul : (ps.length + 1) * nq = ps.length * nq + nq := by ring
    refine ⟨?_, ?_, ?_, ?_⟩
    · rw [inext, pnext]
      simp only [List.length_cons, Nat.succ_mul]
      omega
    · rw [icreated, pcreated, pnext, List.append_assoc]
      show _ = st.created ++ expectedCreated (p :: ps) nq st.nextSessionId
      rw [expectedCreated]
    · intro k hk
      rw [ifind k (by omega), pfind k, if_neg (by omega)]
    · intro c hc
      rw [expectedCreated] at hc
      rcases List.mem_append.mp hc with hc | hc
      · obtain ⟨j, hj, rfl⟩ := List.mem_map.mp hc
        have hjlt := List.mem_range.mp hj
        have hklt : st.nextSessionId + j <
            (sendQueriesToPeer nq p t st).nextSessionId := by omega
        rw [ifind _ hklt, pfind, if_pos (by simp; omega)]
      · rw [show st.nextSessionId + nq =
            (sendQueriesToPeer nq p t st).nextSessionId from by omega] at hc
        exact inew c hc

theorem create_outbound_fst (args : Args) (peer_id : PeerId)
    (pending : List PeerId) (st : GateState) (now : Time) :
    (create_outbound_sessions_if_all_peers_connected args peer_id pending
        st now).1 = pending ++ [peer_id] := by
  rw [create_outbound_sessions_if_all_peers_connected]
  split <;> rfl

theorem create_outbound_snd_of_le (args : Args) (peer_id : PeerId)
    (pending : List PeerId) (st : GateState) (now : Time)
    (h : args.num_expected_connections ≤ pending.length + 1) :
    (create_outbound_sessions_if_all_peers_connected args peer_id pending
        st now).2 =
      sendQueriesToAllPeers args.num_queries_per_connection now
        (pending ++ [peer_id]) st := by
  rw [create_outbound_sessions_if_all_peers_connected]
  rw [if_pos (by simpa using h)]

theorem create_outbound_snd_of_lt (args : Args) (peer_id : PeerId)
    (pending : List PeerId) (st : GateState) (now : Time)
    (h : pending.length + 1 < args.num_expected_connections) :
    (create_outbound_sessions_if_all_peers_connected args peer_id pending
        st now).2 = st := by
  rw [create_outbound_sessions_if_all_peers_connected]
  rw [if_neg (by simp; omega)]

theorem step_frame (args : Args) (s : BenchState) (e : TraceEntry)
    (s' : BenchState) (h : step args s e = some s') :
    s'.peers_pending_outbound_session.length =
      s.peers_pending_outbound_session.length +
        (if isConnectionEstablished e then 1 else 0) ∧
    s'.connected_in_the_past =
      (s.connected_in_the_past || isConnectionEstablished e) ∧
    ((∀ i : InboundSessionId, e.event ≠ .newInboundSession i) →
      s'.preprepared_messages = s.preprepared_messages ∧
      s'.inboundSendLog = s.inboundSendLog ∧
      s'.inbound_session_to_messages = s.inbound_session_to_messages) := by
  obtain ⟨ev, now, np⟩ := e
  cases ev with
  | connectionEstablished peer_id =>
    simp only [step] at h
    obtain rfl := Option.some.inj h
    refine ⟨?_, by simp [isConnectionEstablished], ?_⟩
    · simp [isConnectionEstablished, create_outbound_fst]
    · intro _
      exact ⟨rfl, rfl, rfl⟩
  | newInboundSession i =>
    simp only [step] at h
    split at h
    · cases h
    · split at h <;>
        · obtain rfl := Option.some.inj h
          exact ⟨by simp [isConnectionEstablished],
            by simp [isConnectionEstablished],
            fun hne => absurd rfl (hne i)⟩
  | sessionFinishedOutbound sid =>
    simp only [step] at h
    cases hf : hmFind s.gate.measurements sid with
    | none => rw [hf] at h; cases h
    | some m =>
      rw [hf] at h
      obtain rfl := Option.some.inj h
      exact ⟨by simp [isConnectionEstablished], by simp [isConnectionEstablished],
        fun _ => ⟨rfl, rfl, rfl⟩⟩
  | sessionFinishedInbound i =>
    simp only [step] at h
    obtain rfl := Option.some.inj h
    exact ⟨by simp [isConnectionEstablished], by simp [isConnectionEstablished],
      fun _ => ⟨rfl, rfl, rfl⟩⟩
  | receivedData sid msg =>
    simp only [step] at h
    match msg with
    | none =>
      obtain rfl := Option.some.inj h
      exact ⟨by simp [isConnectionEstablished], by simp [isConnectionEstablished],
        fun _ => ⟨rfl, rfl, rfl⟩⟩
    | some (.content p) =>
      obtain rfl := Option.some.inj h
      exact ⟨by simp [isConnectionEstablished], by simp [isConnectionEstablished],
        fun _ => ⟨rfl, rfl, rfl⟩⟩
    | some (.start st) =>
      cases hf : hmFind s.gate.measurements sid with
      | none => rw [hf] at h; cases h
      | some m =>
        rw [hf] at h
        obtain rfl := Option.some.inj h
        exact ⟨by simp [isConnectionEstablished], by simp [isConnectionEstablished],
          fun _ => ⟨rfl, rfl, rfl⟩⟩
  | outgoingConnectionError =>
    simp only [step] at h
    obtain rfl := Option.some.inj h
    exact ⟨by simp [isConnectionEstablished], by simp [isConnectionEstablished],
      fun _ => ⟨rfl, rfl, rfl⟩⟩
  | sessionFailedConnectionClosed =>
    simp only [step] at h
    obtain rfl := Option.some.inj h
    exact ⟨by simp [isConnectionEstablished], by simp [isConnectionEstablished],
      fun _ => ⟨rfl, rfl, rfl⟩⟩
  | sessionFailedIOError =>
    simp only [step] at h
    obtain rfl := Option.some.inj h
    exact ⟨by simp [isConnectionEstablished], by simp [isConnectionEstablished],
      fun _ => ⟨rfl, rfl, rfl⟩⟩
  | newListenAddr =>
    simp only [step] at h
    obtain rfl := Option.some.inj h
    exact ⟨by simp [isConnectionEstablished], by simp [isConnectionEstablished],
      fun _ => ⟨rfl, rfl, rfl⟩⟩
  | incomingConnection =>
    simp only [step] at h
    obtain rfl := Option.some.inj h
    exact ⟨by simp [isConnectionEstablished], by simp [isConnectionEstablished],
      fun _ => ⟨rfl, rfl, rfl⟩⟩
  | connectionClosed =>
    simp only [step] at h
    obtain rfl := Option.some.inj h
    exact ⟨by simp [isConnectionEstablished], by simp [isConnectionEstablished],
      fun _ => ⟨rfl, rfl, rfl⟩⟩
  | otherEvent =>
    simp only [step] at h
    cases h

theorem runEvents_pending_length (args : Args) :
    ∀ (tr : List TraceEntry) (s s' : BenchState),
      runEvents args s tr = some s' →
      s'.peers_pending_outbound_session.length =
        s.peers_pending_outbound_session.length +
          countConnectionEstablished tr := by
  intro tr
  induction tr with
  | nil =>
    intro s s' h
    obtain rfl := Option.some.inj h
    simp [countConnectionEstablished]
  | cons e tr ih =>
    intro s s' h
    simp only [runEvents] at h
    split at h
    · cases h
    · rename_i s1 heq
      have hlen := (step_frame args s e s1 heq).1
      rw [ih s1 s' h, hlen, countConnectionEstablished,
        countConnectionEstablished, List.filter_cons]
      by_cases hc : isConnectionEstablished e <;> simp [hc] <;> omega

/-- Counterexample to C2: with a threshold of one expected connection,
after the handler of the single connection-established event completes,
the pending-peer list still holds the peer: its length is 1, which is not
strictly less than the threshold 1, because issuing the batch does not
empty the list. -/
theorem C2_counterexample :
    (runEvents ⟨false, 0, 1, 0, 0, 0⟩ (initState ⟨false, 0, 1, 0, 0, 0⟩)
        [⟨.connectionEstablished 3, 0, 1⟩]).map
        (fun s => decide (s.peers_pending_outbound_session.length <
          (⟨false, 0, 1, 0, 0, 0⟩ : Args).num_expected_connections)) =
      some false := by decide

/-- C2 as amended: the pending-peer list is **never** consumed: no handler
removes anything from it, so after every completed handler its length
equals the total number of connection-established events handled so far —
once the threshold is reached the length stays at or above the threshold
instead of dropping below it. -/
theorem C2_pending_accumulates (args : Args) (tr : List TraceEntry)
    (s : BenchState) (h : runEvents args (initState args) tr = some s) :
    s.peers_pending_outbound_session.length =
      countConnectionEstablished tr := by
  have hrun := runEvents_pending_length args tr (initState args) s h
  simpa [initState] using hrun

/-- Witness for C2 (amended form): one connection-established event leaves
one peer in the pending list. -/
theorem C2_pending_accumulates_witness :
    (⟨⟨[], 0, []⟩, [], true, [], [3], [], [], 0⟩ :
        BenchState).peers_pending_outbound_session.length =
      countConnectionEstablished [⟨.connectionEstablished 3, 0, 1⟩] :=
  C2_pending_accumulates ⟨false, 0, 1, 0, 0, 0⟩
    [⟨.connectionEstablished 3, 0, 1⟩]
    ⟨⟨[], 0, []⟩, [], true, [], [3], [], [], 0⟩ (by decide)

/-- C10: once the pending-peer list has already reached the configured
threshold, every further connection-established event fires the batch
again for **every** accumulated peer (the new one and all previously
served ones): `num_queries_per_connection` queries per peer are issued,
with fresh consecutive session ids, and a fresh measurement (with
`start_time = now` and the optional fields unset) is inserted for each —
because the pending list is never cleared. -/
theorem C10_rebatch_after_threshold (args : Args) (peer_id : PeerId)
    (pending : List PeerId) (st : GateState) (now : Time)
    (h : args.num_expected_connections ≤ pending.length) :
    (create_outbound_sessions_if_all_peers_connected args peer_id pending
        st now).1 = pending ++ [peer_id] ∧
    (create_outbound_sessions_if_all_peers_connected args peer_id pending
        st now).2.created =
      st.created ++
        expectedCreated (pending ++ [peer_id])
          args.num_queries_per_connection st.nextSessionId ∧
    ∀ c ∈ expectedCreated (pending ++ [peer_id])
        args.num_queries_per_connection st.nextSessionId,
      hmFind (create_outbound_sessions_if_all_peers_connected args peer_id
          pending st now).2.measurements c.sessionId =
        some (OutboundSessionMeasurement.new now) := by
  obtain ⟨hnext, hcreated, hold, hnew⟩ :=
    sendQueriesToAllPeers_spec args.num_queries_per_connection now
      (pending ++ [peer_id]) st
  have hsnd := create_outbound_snd_of_le args peer_id pending st now
    (by omega)
  refine ⟨create_outbound_fst args peer_id pending st now, ?_, ?_⟩
  · rw [hsnd]
    exact hcreated
  · intro c hc
    rw [hsnd]
    exact hnew c hc

/-- Witness for C10: with a threshold of one expected connection, a peer
already in the pending list, and one query per connection, a second
connection-established event re-issues a query to the old peer 5 as well
as to the new peer 9, with fresh measurements under session ids 0 and
1. -/
theorem C10_rebatch_after_threshold_witness :
    (create_outbound_sessions_if_all_peers_connected ⟨false, 0, 1, 1, 0, 0⟩
        9 [5] ⟨[], 0, []⟩ 2).1 = [5, 9] ∧
    (create_outbound_sessions_if_all_peers_connected ⟨false, 0, 1, 1, 0, 0⟩
        9 [5] ⟨[], 0, []⟩ 2).2.created =
      [] ++ expectedCreated [5, 9] 1 0 ∧
    ∀ c ∈ expectedCreated [5, 9] 1 0,
      hmFind (create_outbound_sessions_if_all_peers_connected
          ⟨false, 0, 1, 1, 0, 0⟩ 9 [5] ⟨[], 0, []⟩ 2).2.measurements
          c.sessionId =
        some (OutboundSessionMeasurement.new 2) :=
  C10_rebatch_after_threshold ⟨false, 0, 1, 1, 0, 0⟩ 9 [5] ⟨[], 0, []⟩ 2
    (by decide)

theorem measurementConsistent_new (t : Time) :
    measurementConsistent (OutboundSessionMeasurement.new t) := by
  simp [measurementConsistent, OutboundSessionMeasurement.new]

theorem measurementConsistent_report (m : OutboundSessionMeasurement)
    (st : InboundSessionStart) (t : Time) :
    measurementConsistent (m.report_first_message st t) := by
  simp [measurementConsistent, OutboundSessionMeasurement.report_first_message]

theorem sendQueriesToPeer_measurements_mem (p : PeerId) (t : Time) :
    ∀ (n : ℕ) (st : GateState)
      (en : OutboundSessionId × OutboundSessionMeasurement),
      en ∈ (sendQueriesToPeer n p t st).measurements →
      en.2 = OutboundSessionMeasurement.new t ∨ en ∈ st.measurements := by
  intro n
  induction n with
  | zero =>
    intro st en h
    right
    simpa [sendQueriesToPeer] using h
  | succ n ih =>
    intro st en h
    rw [sendQueriesToPeer_succ] at h
    rcases hmInsert_mem h with he | he
    · left; rw [he]
    · exact ih st en he

theorem sendQueriesToAllPeers_measurements_mem (nq : ℕ) (t : Time) :
    ∀ (peers : List PeerId) (st : GateState)
      (en : OutboundSessionId × OutboundSessionMeasurement),
      en ∈ (sendQueriesToAllPeers nq t peers st).measurements →
      en.2 = OutboundSessionMeasurement.new t ∨ en ∈ st.measurements := by
  intro peers
  induction peers with
  | nil =>
    intro st en h
    right
    simpa [sendQueriesToAllPeers] using h
  | cons p ps ih =>
    intro st en h
    rw [sendQueriesToAllPeers_cons] at h
    rcases ih (sendQueriesToPeer nq p t st) en h with he | he
    · exact Or.inl he
    · exact sendQueriesToPeer_measurements_mem p t nq st en he

theorem step_preserves_consistent (args : Args) (s : BenchState)
    (e : TraceEntry) (s' : BenchState) (h : step args s e = some s')
    (hs : ∀ en ∈ s.gate.measurements, measurementConsistent en.2) :
    ∀ en ∈ s'.gate.measurements, measurementConsistent en.2 := by
  obtain ⟨ev, now, np⟩ := e
  cases ev with
  | connectionEstablished peer_id =>
    simp only [step] at h
    obtain rfl := Option.some.inj h
    intro en hen
    by_cases hth : args.num_expected_connections ≤
        s.peers_pending_outbound_session.length + 1
    · rw [create_outbound_snd_of_le args peer_id
        s.peers_pending_outbound_session s.gate now hth] at hen
      rcases sendQueriesToAllPeers_measurements_mem
          args.num_queries_per_connection now
          (s.peers_pending_outbound_session ++ [peer_id]) s.gate en hen with
        he | he
      · rw [he]; exact measurementConsistent_new now
      · exact hs en he
    · rw [create_outbound_snd_of_lt args peer_id
        s.peers_pending_outbound_session s.gate now (by omega)] at hen
      exact hs en hen
  | newInboundSession i =>
    simp only [step] at h
    split at h
    · cases h
    · split at h <;>
        · obtain rfl := Option.some.inj h
          exact hs
  | sessionFinishedOutbound sid =>
    simp only [step] at h
    cases hf : hmFind s.gate.measurements sid with
    | none => rw [hf] at h; cases h
    | some m =>
      rw [hf] at h
      obtain rfl := Option.some.inj h
      exact hs
  | receivedData sid msg =>
    simp only [step] at h
    match msg with
    | none =>
      obtain rfl := Option.some.inj h
      exact hs
    | some (.content p) =>
      obtain rfl := Option.some.inj h
      exact hs
    | some (.start inbound_session_start) =>
      cases hf : hmFind s.gate.measurements sid with
      | none => rw [hf] at h; cases h
      | some m =>
        rw [hf] at h
        obtain rfl := Option.some.inj h
        intro en hen
        rcases hmInsert_mem hen with he | he
        · rw [he]; exact measurementConsistent_report m inbound_session_start now
        · exact hs en he
  | outgoingConnectionError =>
    simp only [step] at h
    obtain rfl := Option.some.inj h
    exact hs
  | sessionFailedConnectionClosed =>
    simp only [step] at h
    obtain rfl := Option.some.inj h
    exact hs
  | sessionFailedIOError =>
    simp only [step] at h
    obtain rfl := Option.some.inj h
    exact hs
  | sessionFinishedInbound i =>
    simp only [step] at h
    obtain rfl := Option.some.inj h
    exact hs
  | newListenAddr =>
    simp only [step] at h
    obtain rfl := Option.some.inj h
    exact hs
  | incomingConnection =>
    simp only [step] at h
    obtain rfl := Option.some.inj h
    exact hs
  | connectionClosed =>
    simp only [step] at h
    obtain rfl := Option.some.inj h
    exact hs
  | otherEvent =>
    simp only [step] at h
    cases h

theorem runEvents_consistent (args : Args) :
    ∀ (tr : List TraceEntry) (s s' : BenchState),
      runEvents args s tr = some s' →
      (∀ en ∈ s.gate.measurements, measurementConsistent en.2) →
      ∀ en ∈ s'.gate.measurements, measurementConsistent en.2 := by
  intro tr
  induction tr with
  | nil =>
    intro s s' h hs
    obtain rfl := Option.some.inj h
    exact hs
  | cons e tr ih =>
    intro s s' h hs
    simp only [runEvents] at h
    split at h
    · cases h
    · rename_i s1 heq
      exact ih s1 s' h (step_preserves_consistent args s e s1 heq hs)

/-- C3: in every state the benchmark loop can reach (obtained by handling
any panic-free list of events from the initial state), every entry of the
measurement table has its three optional fields all unset or all set:
entry creation (`new`) leaves all three unset and the only mutation
(`report_first_message`, run by the stream-start handler) sets all three
together. -/
theorem C3_measurement_fields_together (args : Args) (tr : List TraceEntry)
    (s : BenchState) (h : runEvents args (initState args) tr = some s) :
    ∀ (sid : OutboundSessionId) (m : OutboundSessionMeasurement),
      (sid, m) ∈ s.gate.measurements → measurementConsistent m := by
  intro sid m hm
  exact runEvents_consistent args tr (initState args) s h
    (by intro en hen; simp [initState] at hen) (sid, m) hm

/-- Witness for C3: after one connection-established event (threshold 1,
one query per connection) the single table entry is the fresh measurement,
and the invariant holds for it. -/
theorem C3_measurement_fields_together_witness :
    measurementConsistent (OutboundSessionMeasurement.new 5) :=
  C3_measurement_fields_together ⟨false, 0, 1, 1, 0, 0⟩
    [⟨.connectionEstablished 7, 5, 1⟩]
    ⟨⟨[(0, OutboundSessionMeasurement.new 5)], 1, [⟨0, 7, 0⟩]⟩, [], true,
      [], [7], [], [], 0⟩
    (by decide) 0 (OutboundSessionMeasurement.new 5) (by decide)

theorem runEvents_cons (args : Args) (s : BenchState) (e : TraceEntry)
    (tr : List TraceEntry) :
    runEvents args s (e :: tr) =
      match step args s e with
      | none => none
      | some s1 => runEvents args s1 tr := rfl

theorem runEvents_append (args : Args) :
    ∀ (l1 l2 : List TraceEntry) (s : BenchState),
      runEvents args s (l1 ++ l2) =
        (runEvents args s l1).bind (fun s1 => runEvents args s1 l2) := by
  intro l1
  induction l1 with
  | nil => intro l2 s; rfl
  | cons e l1 ih =>
    intro l2 s
    rw [List.cons_append, runEvents_cons, runEvents_cons]
    cases step args s e with
    | none => rfl
    | some s1 => exact ih l2 s1

theorem step_connectionEstablished (args : Args) (s : BenchState)
    (p : PeerId) (t : Time) (np : ℕ) :
    step args s ⟨.connectionEstablished p, t, np⟩ =
      some { s with
        connected_in_the_past := true
        peers_pending_outbound_session :=
          s.peers_pending_outbound_session ++ [p]
        gate :=
          (create_outbound_sessions_if_all_peers_connected args p
            s.peers_pending_outbound_session s.gate t).2 } := by
  simp only [step]
  rw [create_outbound_fst]

theorem runEvents_connTrace_noFire (args : Args) (t : Time) (np : ℕ) :
    ∀ (ps : List PeerId) (s : BenchState),
      s.peers_pending_outbound_session.length + ps.length <
        args.num_expected_connections →
      runEvents args s
          (ps.map (fun p => ⟨.connectionEstablished p, t, np⟩)) =
        some { s with
          peers_pending_outbound_session :=
            s.peers_pending_outbound_session ++ ps
          connected_in_the_past :=
            s.connected_in_the_past || !ps.isEmpty } := by
  intro ps
  induction ps with
  | nil =>
    intro s hlen
    simp [runEvents]
  | cons p ps ih =>
    intro s hlen
    simp only [List.map_cons]
    rw [runEvents_cons, step_connectionEstablished,
      create_outbound_snd_of_lt args p s.peers_pending_outbound_session
        s.gate t (by simp at hlen; omega)]
    show runEvents args _ _ = _
    rw [ih _ (by simp at hlen ⊢; omega)]
    simp [List.append_assoc]

/-- C4: when exactly `N` connection-established events are handled, where
`N` is the configured expected connection count (all at time `t`, with
session-open requests always succeeding as in the model), the final event
fires the batch exactly once: the created outbound sessions are precisely
`num_queries_per_connection` per accumulated peer with sequence numbers
`0..num_queries_per_connection` repeated per peer (`expectedCreated`),
their total count is `N * num_queries_per_connection`, and each created
session id maps to a fresh measurement (`start_time = t`, optional fields
unset) in the measurement table. -/
theorem C4_batch_on_expected_connections (args : Args)
    (peers : List PeerId) (t : Time) (np : ℕ)
    (hN : peers.length = args.num_expected_connections) :
    ∃ s, runEvents args (initState args)
        (peers.map (fun p => ⟨.connectionEstablished p, t, np⟩)) =
          some s ∧
      s.gate.created =
        expectedCreated peers args.num_queries_per_connection 0 ∧
      s.gate.created.length =
        args.num_expected_connections * args.num_queries_per_connection ∧
      ∀ c ∈ s.gate.created,
        hmFind s.gate.measurements c.sessionId =
          some (OutboundSessionMeasurement.new t) := by
  rcases List.eq_nil_or_concat peers with rfl | ⟨ys, y, rfl⟩
  · refine ⟨initState args, by simp [runEvents], ?_, ?_, ?_⟩
    · simp [initState, expectedCreated]
    · simp [initState, ← hN]
    · intro c hc
      simp [initState] at hc
  · have hys : ys.length + 1 = args.num_expected_connections := by
      simpa using hN
    obtain ⟨hnext, hcreated, hold, hnew⟩ :=
      sendQueriesToAllPeers_spec args.num_queries_per_connection t
        (ys ++ [y]) (⟨[], 0, []⟩ : GateState)
    rw [List.concat_eq_append, List.map_append, runEvents_append,
      runEvents_connTrace_noFire args t np ys (initState args)
        (by simp [initState]; omega)]
    show ∃ s, runEvents args _ _ = some s ∧ _
    rw [List.map_singleton, runEvents_cons, step_connectionEstablished,
      create_outbound_snd_of_le args y _ _ t (by simp [initState]; omega)]
    refine ⟨_, rfl, ?_, ?_, ?_⟩
    · show (sendQueriesToAllPeers args.num_queries_per_connection t
          (([] : List PeerId) ++ ys ++ [y]) (initState args).gate).created =
        _
      rw [List.nil_append]
      show (sendQueriesToAllPeers args.num_queries_per_connection t
          (ys ++ [y]) (⟨[], 0, []⟩ : GateState)).created = _
      rw [hcreated]
      rfl
    · show (sendQueriesToAllPeers args.num_queries_per_connection t
          (([] : List PeerId) ++ ys ++ [y])
          (initState args).gate).created.length = _
      rw [List.nil_append]
      show (sendQueriesToAllPeers args.num_queries_per_connection t
          (ys ++ [y]) (⟨[], 0, []⟩ : GateState)).created.length = _
      rw [hcreated, List.nil_append, expectedCreated_length]
      simp only [List.length_append, List.length_singleton]
      rw [hys]
    · intro c hc
      show hmFind (sendQueriesToAllPeers args.num_queries_per_connection t
          (([] : List PeerId) ++ ys ++ [y])
          (initState args).gate).measurements c.sessionId = _
      rw [List.nil_append]
      show hmFind (sendQueriesToAllPeers args.num_queries_per_connection t
          (ys ++ [y]) (⟨[], 0, []⟩ : GateState)).measurements c.sessionId = _
      apply hnew
      revert hc
      show c ∈ (sendQueriesToAllPeers args.num_queries_per_connection t
          (([] : List PeerId) ++ ys ++ [y])
          (initState args).gate).created → _
      rw [List.nil_append]
      show c ∈ (sendQueriesToAllPeers args.num_queries_per_connection t
          (ys ++ [y]) (⟨[], 0, []⟩ : GateState)).created → _
      rw [hcreated, List.nil_append]
      exact id

/-- Witness for C4: one expected connection, two queries per connection:
the single connection event creates sessions 0 and 1 to peer 7 with
sequence numbers 0 and 1, each with a fresh measurement. -/
theorem C4_batch_on_expected_connections_witness :
    ∃ s, runEvents ⟨false, 0, 1, 2, 0, 0⟩
        (initState ⟨false, 0, 1, 2, 0, 0⟩)
        ([7].map (fun p => ⟨.connectionEstablished p, 4, 1⟩)) = some s ∧
      s.gate.created = expectedCreated [7] 2 0 ∧
      s.gate.created.length = 1 * 2 ∧
      ∀ c ∈ s.gate.created,
        hmFind s.gate.measurements c.sessionId =
          some (OutboundSessionMeasurement.new 4) :=
  C4_batch_on_expected_connections ⟨false, 0, 1, 2, 0, 0⟩ [7] 4 1
    (by decide)

theorem runEvents_noFeed (args : Args) :
    ∀ (tr : List TraceEntry) (s s' : BenchState),
      (inboundIds tr).length < s.preprepared_messages.length →
      runEvents args s tr = some s' →
      s'.inboundSendLog = s.inboundSendLog ∧
      s'.preprepared_messages.length =
        s.preprepared_messages.length - (inboundIds tr).length ∧
      (∀ id : InboundSessionId,
        (hmFind s.inbound_session_to_messages id).isSome →
        (hmFind s'.inbound_session_to_messages id).isSome) ∧
      ∀ id ∈ inboundIds tr,
        (hmFind s'.inbound_session_to_messages id).isSome := by
  intro tr
  induction tr with
  | nil =>
    intro s s' hcount hrun
    obtain rfl := Option.some.inj hrun
    exact ⟨rfl, by simp [inboundIds], fun id h => h, by simp [inboundIds]⟩
  | cons e tr ih =>
    intro s s' hcount hrun
    rw [runEvents_cons] at hrun
    cases hst : step args s e with
    | none => rw [hst] at hrun; cases hrun
    | some s1 =>
      rw [hst] at hrun
      have hrun1 : runEvents args s1 tr = some s' := hrun
      obtain ⟨ev, now, np⟩ := e
      cases hev : ev with
      | newInboundSession i =>
        subst hev
        have hids : inboundIds (⟨.newInboundSession i, now, np⟩ :: tr) =
            i :: inboundIds tr := by
          simp [inboundIds, List.filterMap_cons]
        rw [hids] at hcount
        simp only [List.length_cons] at hcount
        simp only [step] at hst
        split at hst
        · rename_i heq
          rw [List.getLast?_eq_none_iff] at heq
          rw [heq] at hcount
          simp at hcount
        · rename_i batch heq
          split at hst
          · rename_i hemp
            rw [List.isEmpty_iff] at hemp
            have : s.preprepared_messages.dropLast.length = 0 := by
              rw [hemp]; rfl
            rw [List.length_dropLast] at this
            omega
          · rename_i hemp
            obtain rfl := Option.some.inj hst
            have hlen1 : ((⟨s.gate,
                hmInsert s.inbound_session_to_messages i batch,
                s.connected_in_the_past,
                s.preprepared_messages.dropLast,
                s.peers_pending_outbound_session, s.inboundSendLog,
                s.reportLog, s.dialCount⟩ :
                BenchState)).preprepared_messages.length =
                s.preprepared_messages.length - 1 := by
              simp [List.length_dropLast]
            obtain ⟨ilog, ilen, imono, iin⟩ := ih _ s'
              (by rw [hlen1]; omega) hrun1
            refine ⟨ilog, ?_, ?_, ?_⟩
            · rw [ilen, hlen1, hids]
              simp only [List.length_cons]
              omega
            · intro id hsome
              apply imono
              show (hmFind (hmInsert s.inbound_session_to_messages i batch)
                id).isSome
              rw [hmFind_insert]
              split <;> simp_all
            · rw [hids]
              intro id hid
              rcases List.mem_cons.mp hid with rfl | hid
              · apply imono
                show (hmFind (hmInsert s.inbound_session_to_messages id
                  batch) id).isSome
                rw [hmFind_insert, if_pos rfl]
                rfl
              · exact iin id hid
      | connectionEstablished peer_id =>
        subst hev
        have hfr := (step_frame args s _ s1 hst).2.2 (fun _ => by simp)
        have hids : inboundIds (⟨.connectionEstablished peer_id, now, np⟩ ::
            tr) = inboundIds tr := by
          simp [inboundIds, List.filterMap_cons]
        rw [hids] at hcount ⊢
        obtain ⟨hpre, hlog, hinb⟩ := hfr
        obtain ⟨ilog, ilen, imono, iin⟩ := ih s1 s'
          (by rw [hpre]; omega) hrun1
        exact ⟨by rw [ilog, hlog], by rw [ilen, hpre],
          fun id hsome => imono id (by rwa [hinb]),
          iin⟩
      | sessionFinishedOutbound sid =>
        subst hev
        have hfr := (step_frame args s _ s1 hst).2.2 (fun _ => by simp)
        have hids : inboundIds (⟨.sessionFinishedOutbound sid, now, np⟩ ::
            tr) = inboundIds tr := by
          simp [inboundIds, List.filterMap_cons]
        rw [hids] at hcount ⊢
        obtain ⟨hpre, hlog, hinb⟩ := hfr
        obtain ⟨ilog, ilen, imono, iin⟩ := ih s1 s'
          (by rw [hpre]; omega) hrun1
        exact ⟨by rw [ilog, hlog], by rw [ilen, hpre],
          fun id hsome => imono id (by rwa [hinb]),
          iin⟩
      | sessionFinishedInbound i =>
        subst hev
        have hfr := (step_frame args s _ s1 hst).2.2 (fun _ => by simp)
        have hids : inboundIds (⟨.sessionFinishedInbound i, now, np⟩ ::
            tr) = inboundIds tr := by
          simp [inboundIds, List.filterMap_cons]
        rw [hids] at hcount ⊢
        obtain ⟨hpre, hlog, hinb⟩ := hfr
        obtain ⟨ilog, ilen, imono, iin⟩ := ih s1 s'
          (by rw [hpre]; omega) hrun1
        exact ⟨by rw [ilog, hlog], by rw [ilen, hpre],
          fun id hsome => imono id (by rwa [hinb]),
          iin⟩
      | receivedData sid msg =>
        subst hev
        have hfr := (step_frame args s _ s1 hst).2.2 (fun _ => by simp)
        have hids : inboundIds (⟨.receivedData sid msg, now, np⟩ :: tr) =
            inboundIds tr := by
          simp [inboundIds, List.filterMap_cons]
        rw [hids] at hcount ⊢
        obtain ⟨hpre, hlog, hinb⟩ := hfr
        obtain ⟨ilog, ilen, imono, iin⟩ := ih s1 s'
          (by rw [hpre]; omega) hrun1
        exact ⟨by rw [ilog, hlog], by rw [ilen, hpre],
          fun id hsome => imono id (by rwa [hinb]),
          iin⟩
      | outgoingConnectionError =>
        subst hev
        have hfr := (step_frame args s _ s1 hst).2.2 (fun _ => by simp)
        have hids : inboundIds (⟨.outgoingConnectionError, now, np⟩ :: tr) =
            inboundIds tr := by
          simp [inboundIds, List.filterMap_cons]
        rw [hids] at hcount ⊢
        obtain ⟨hpre, hlog, hinb⟩ := hfr
        obtain ⟨ilog, ilen, imono, iin⟩ := ih s1 s'
          (by rw [hpre]; omega) hrun1
        exact ⟨by rw [ilog, hlog], by rw [ilen, hpre],
          fun id hsome => imono id (by rwa [hinb]),
          iin⟩
      | sessionFailedConnectionClosed =>
        subst hev
        have hfr := (step_frame args s _ s1 hst).2.2 (fun _ => by simp)
        have hids : inboundIds
            (⟨.sessionFailedConnectionClosed, now, np⟩ :: tr) =
            inboundIds tr := by
          simp [inboundIds, List.filterMap_cons]
        rw [hids] at hcount ⊢
        obtain ⟨hpre, hlog, hinb⟩ := hfr
        obtain ⟨ilog, ilen, imono, iin⟩ := ih s1 s'
          (by rw [hpre]; omega) hrun1
        exact ⟨by rw [ilog, hlog], by rw [ilen, hpre],
          fun id hsome => imono id (by rwa [hinb]),
          iin⟩
      | sessionFailedIOError =>
        subst hev
        have hfr := (step_frame args s _ s1 hst).2.2 (fun _ => by simp)
        have hids : inboundIds (⟨.sessionFailedIOError, now, np⟩ :: tr) =
            inboundIds tr := by
          simp [inboundIds, List.filterMap_cons]
        rw [hids] at hcount ⊢
        obtain ⟨hpre, hlog, hinb⟩ := hfr
        obtain ⟨ilog, ilen, imono, iin⟩ := ih s1 s'
          (by rw [hpre]; omega) hrun1
        exact ⟨by rw [ilog, hlog], by rw [ilen, hpre],
          fun id hsome => imono id (by rwa [hinb]),
          iin⟩
      | newListenAddr =>
        subst hev
        have hfr := (step_frame args s _ s1 hst).2.2 (fun _ => by simp)
        have hids : inboundIds (⟨.newListenAddr, now, np⟩ :: tr) =
            inboundIds tr := by
          simp [inboundIds, List.filterMap_cons]
        rw [hids] at hcount ⊢
        obtain ⟨hpre, hlog, hinb⟩ := hfr
        obtain ⟨ilog, ilen, imono, iin⟩ := ih s1 s'
          (by rw [hpre]; omega) hrun1
        exact ⟨by rw [ilog, hlog], by rw [ilen, hpre],
          fun id hsome => imono id (by rwa [hinb]),
          iin⟩
      | incomingConnection =>
        subst hev
        have hfr := (step_frame args s _ s1 hst).2.2 (fun _ => by simp)
        have hids : inboundIds (⟨.incomingConnection, now, np⟩ :: tr) =
            inboundIds tr := by
          simp [inboundIds, List.filterMap_cons]
        rw [hids] at hcount ⊢
        obtain ⟨hpre, hlog, hinb⟩ := hfr
        obtain ⟨ilog, ilen, imono, iin⟩ := ih s1 s'
          (by rw [hpre]; omega) hrun1
        exact ⟨by rw [ilog, hlog], by rw [ilen, hpre],
          fun id hsome => imono id (by rwa [hinb]),
          iin⟩
      | connectionClosed =>
        subst hev
        have hfr := (step_frame args s _ s1 hst).2.2 (fun _ => by simp)
        have hids : inboundIds (⟨.connectionClosed, now, np⟩ :: tr) =
            inboundIds tr := by
          simp [inboundIds, List.filterMap_cons]
        rw [hids] at hcount ⊢
        obtain ⟨hpre, hlog, hinb⟩ := hfr
        obtain ⟨ilog, ilen, imono, iin⟩ := ih s1 s'
          (by rw [hpre]; omega) hrun1
        exact ⟨by rw [ilog, hlog], by rw [ilen, hpre],
          fun id hsome => imono id (by rwa [hinb]),
          iin⟩
      | otherEvent =>
        subst hev
        simp only [step] at hst
        cases hst

/-- C5: as long as fewer distinct inbound sessions than the configured
`num_expected_inbound_sessions` have been observed (inbound session ids
are distinct, as the swarm guarantees), the send log is empty — neither a
stream-start message nor any payload has been sent to any inbound
session — while every inbound session that already arrived has been
claimed: it holds a batch in the feed table. -/
theorem C5_no_payload_before_last_inbound (args : Args)
    (tr : List TraceEntry) (s : BenchState)
    (hNodup : (inboundIds tr).Nodup)
    (hCount : (inboundIds tr).length < args.num_expected_inbound_sessions)
    (hrun : runEvents args (initState args) tr = some s) :
    s.inboundSendLog = [] ∧
    ∀ id ∈ inboundIds tr,
      (hmFind s.inbound_session_to_messages id).isSome := by
  have hinit : (initState args).preprepared_messages.length =
      args.num_expected_inbound_sessions := by
    simp [initState]
  obtain ⟨hlog, _, _, hclaim⟩ := runEvents_noFeed args tr (initState args) s
    (by rw [hinit]; exact hCount) hrun
  refine ⟨?_, hclaim⟩
  rw [hlog]
  simp [initState]

/-- Witness for C5: two expected inbound sessions; after the first one
arrives nothing has been sent and the session is claimed. -/
theorem C5_no_payload_before_last_inbound_witness :
    (⟨⟨[], 0, []⟩, [(4, [])], false, [[]], [], [], [], 0⟩ :
        BenchState).inboundSendLog = [] ∧
    ∀ id ∈ inboundIds [⟨.newInboundSession 4, 0, 1⟩],
      (hmFind (⟨⟨[], 0, []⟩, [(4, [])], false, [[]], [], [], [], 0⟩ :
          BenchState).inbound_session_to_messages id).isSome :=
  C5_no_payload_before_last_inbound ⟨false, 2, 0, 0, 0, 0⟩
    [⟨.newInboundSession 4, 0, 1⟩]
    ⟨⟨[], 0, []⟩, [(4, [])], false, [[]], [], [], [], 0⟩
    (by decide) (by decide) (by decide)

theorem projOn_append (id : InboundSessionId)
    (a b : List (InboundSessionId × InboundSend)) :
    projOn id (a ++ b) = projOn id a ++ projOn id b := by
  simp [projOn, List.filter_append]

theorem drainLoop_nil : drainLoop [] = [] := by
  rw [drainLoop]
  rfl

theorem drainLoop_ne (t : List (InboundSessionId × List Payload))
    (h : t ≠ []) :
    drainLoop t = (drainRound t).1 ++ drainLoop (drainRound t).2 := by
  rw [drainLoop]
  rw [dif_neg h]

theorem drainRound_log_keys :
    ∀ (t : List (InboundSessionId × List Payload))
      (a : InboundSessionId × InboundSend),
      a ∈ (drainRound t).1 → a.1 ∈ t.map Prod.fst := by
  intro t
  induction t with
  | nil => intro a ha; simp [drainRound] at ha
  | cons e rest ih =>
    obtain ⟨sid, messages⟩ := e
    intro a ha
    simp only [drainRound] at ha
    cases hgl : messages.getLast? with
    | some m =>
      rw [hgl] at ha
      rcases List.mem_cons.mp ha with rfl | ha
      · simp
      · simp only [List.map_cons, List.mem_cons]
        exact Or.inr (ih a ha)
    | none =>
      rw [hgl] at ha
      rcases List.mem_cons.mp ha with rfl | ha
      · simp
      · simp only [List.map_cons, List.mem_cons]
        exact Or.inr (ih a ha)

theorem drainRound_table_keys_sublist :
    ∀ t : List (InboundSessionId × List Payload),
      ((drainRound t).2.map Prod.fst).Sublist (t.map Prod.fst) := by
  intro t
  induction t with
  | nil => simp [drainRound]
  | cons e rest ih =>
    obtain ⟨sid, messages⟩ := e
    simp only [drainRound]
    cases hgl : messages.getLast? with
    | some m =>
      simp only [List.map_cons]
      exact List.Sublist.cons₂ sid ih
    | none =>
      simp only [List.map_cons]
      exact List.Sublist.cons sid ih

theorem projOn_eq_nil_of_keys (id : InboundSessionId)
    (log : List (InboundSessionId × InboundSend))
    (h : ∀ a ∈ log, a.1 ≠ id) : projOn id log = [] := by
  rw [projOn]
  rw [List.filter_eq_nil_iff.mpr]
  · rfl
  · intro a ha
    simp [h a ha]

theorem drainRound_log_proj_nil (id : InboundSessionId)
    (t : List (InboundSessionId × List Payload))
    (h : id ∉ t.map Prod.fst) : projOn id (drainRound t).1 = [] :=
  projOn_eq_nil_of_keys id _
    (fun a ha he => h (he ▸ drainRound_log_keys t a ha))

theorem drainLoop_proj_nil (id : InboundSessionId) :
    ∀ t : List (InboundSessionId × List Payload),
      id ∉ t.map Prod.fst → projOn id (drainLoop t) = [] := by
  intro t
  induction t using drainLoop.induct with
  | case1 => intro _; rw [drainLoop_nil]; rfl
  | case2 t hne ih =>
    intro hid
    rw [drainLoop_ne t hne, projOn_append, drainRound_log_proj_nil id t hid,
      ih (fun hmem =>
        hid ((drainRound_table_keys_sublist t).subset hmem))]
    rfl

theorem projOn_cons_self (id : InboundSessionId) (v : InboundSend)
    (log : List (InboundSessionId × InboundSend)) :
    projOn id ((id, v) :: log) = v :: projOn id log := by
  simp [projOn]

theorem projOn_cons_ne (id k : InboundSessionId) (v : InboundSend)
    (log : List (InboundSessionId × InboundSend)) (h : k ≠ id) :
    projOn id ((k, v) :: log) = projOn id log := by
  simp [projOn, h]

theorem drainRound_cons_pos (sid : InboundSessionId)
    (messages : List Payload)
    (rest : List (InboundSessionId × List Payload)) (m : Payload)
    (h : messages.getLast? = some m) :
    drainRound ((sid, messages) :: rest) =
      ((sid, InboundSend.contentMsg m) :: (drainRound rest).1,
        (sid, messages.dropLast) :: (drainRound rest).2) := by
  simp only [drainRound, h]

theorem drainRound_cons_none (sid : InboundSessionId)
    (messages : List Payload)
    (rest : List (InboundSessionId × List Payload))
    (h : messages.getLast? = none) :
    drainRound ((sid, messages) :: rest) =
      ((sid, InboundSend.closeSession) :: (drainRound rest).1,
        (drainRound rest).2) := by
  simp only [drainRound, h]

theorem drainRound_mem_pos :
    ∀ (t : List (InboundSessionId × List Payload)) (id : InboundSessionId)
      (buf : List Payload) (hne : buf ≠ []),
      (id, buf) ∈ t → (t.map Prod.fst).Nodup →
      projOn id (drainRound t).1 =
        [InboundSend.contentMsg (buf.getLast hne)] ∧
      (id, buf.dropLast) ∈ (drainRound t).2 := by
  intro t
  induction t with
  | nil => intro id buf hne hmem; simp at hmem
  | cons e rest ih =>
    obtain ⟨sid, messages⟩ := e
    intro id buf hne hmem hnd
    have hnd' : (rest.map Prod.fst).Nodup := by
      simp only [List.map_cons, List.nodup_cons] at hnd
      exact hnd.2
    have hsid : sid ∉ rest.map Prod.fst := by
      simp only [List.map_cons, List.nodup_cons] at hnd
      exact hnd.1
    rcases List.mem_cons.mp hmem with he | hmem'
    · injection he with h1 h2
      subst h1
      subst h2
      rw [drainRound_cons_pos id buf rest _
        (List.getLast?_eq_getLast buf hne)]
      refine ⟨?_, List.mem_cons_self _ _⟩
      rw [projOn_cons_self, drainRound_log_proj_nil id rest hsid]
    · have hid : id ∈ rest.map Prod.fst :=
        List.mem_map_of_mem Prod.fst hmem'
      have hne' : sid ≠ id := fun he => hsid (he ▸ hid)
      obtain ⟨ihp, ihm⟩ := ih id buf hne hmem' hnd'
      cases hgl : messages.getLast? with
      | some m =>
        rw [drainRound_cons_pos sid messages rest m hgl]
        exact ⟨by rw [projOn_cons_ne id sid _ _ hne']; exact ihp,
          List.mem_cons_of_mem _ ihm⟩
      | none =>
        rw [drainRound_cons_none sid messages rest hgl]
        exact ⟨by rw [projOn_cons_ne id sid _ _ hne']; exact ihp, ihm⟩

theorem drainRound_mem_none :
    ∀ (t : List (InboundSessionId × List Payload)) (id : InboundSessionId),
      (id, ([] : List Payload)) ∈ t → (t.map Prod.fst).Nodup →
      projOn id (drainRound t).1 = [InboundSend.closeSession] ∧
      id ∉ (drainRound t).2.map Prod.fst := by
  intro t
  induction t with
  | nil => intro id hmem; simp at hmem
  | cons e rest ih =>
    obtain ⟨sid, messages⟩ := e
    intro id hmem hnd
    have hnd' : (rest.map Prod.fst).Nodup := by
      simp only [List.map_cons, List.nodup_cons] at hnd
      exact hnd.2
    have hsid : sid ∉ rest.map Prod.fst := by
      simp only [List.map_cons, List.nodup_cons] at hnd
      exact hnd.1
    rcases List.mem_cons.mp hmem with he | hmem'
    · injection he with h1 h2
      subst h1
      rw [drainRound_cons_none id messages rest (by rw [← h2]; rfl)]
      refine ⟨?_, ?_⟩
      · rw [projOn_cons_self, drainRound_log_proj_nil id rest hsid]
      · exact fun hm =>
          hsid ((drainRound_table_keys_sublist rest).subset hm)
    · have hid : id ∈ rest.map Prod.fst :=
        List.mem_map_of_mem Prod.fst hmem'
      have hne' : sid ≠ id := fun he => hsid (he ▸ hid)
      obtain ⟨ihp, ihm⟩ := ih id hmem' hnd'
      cases hgl : messages.getLast? with
      | some m =>
        rw [drainRound_cons_pos sid messages rest m hgl]
        refine ⟨by rw [projOn_cons_ne id sid _ _ hne']; exact ihp, ?_⟩
        simp only [List.map_cons, List.mem_cons]
        rintro (rfl | hm)
        · exact hne' rfl
        · exact ihm hm
      | none =>
        rw [drainRound_cons_none sid messages rest hgl]
        exact ⟨by rw [projOn_cons_ne id sid _ _ hne']; exact ihp, ihm⟩

theorem drainLoop_proj :
    ∀ (n : ℕ) (t : List (InboundSessionId × List Payload))
      (id : InboundSessionId) (buf : List Payload),
      buf.length = n → (id, buf) ∈ t → (t.map Prod.fst).Nodup →
      projOn id (drainLoop t) =
        buf.reverse.map InboundSend.contentMsg ++
          [InboundSend.closeSession] := by
  intro n
  induction n with
  | zero =>
    intro t id buf hlen hmem hnd
    have hbuf : buf = [] := List.eq_nil_of_length_eq_zero hlen
    subst hbuf
    have hne : t ≠ [] := by
      intro h; rw [h] at hmem; simp at hmem
    rw [drainLoop_ne t hne, projOn_append]
    obtain ⟨hproj, hnot⟩ := drainRound_mem_none t id hmem hnd
    rw [hproj, drainLoop_proj_nil id (drainRound t).2 hnot]
    rfl
  | succ n ih =>
    intro t id buf hlen hmem hnd
    have hbne : buf ≠ [] := by
      intro h; rw [h] at hlen; simp at hlen
    have hne : t ≠ [] := by
      intro h; rw [h] at hmem; simp at hmem
    rw [drainLoop_ne t hne, projOn_append]
    obtain ⟨hproj, hmem'⟩ := drainRound_mem_pos t id buf hbne hmem hnd
    have hnd' : ((drainRound t).2.map Prod.fst).Nodup :=
      (drainRound_table_keys_sublist t).nodup hnd
    rw [hproj, ih (drainRound t).2 id buf.dropLast
      (by rw [List.length_dropLast, hlen]; rfl) hmem' hnd']
    have hrev : buf.reverse =
        buf.getLast hbne :: buf.dropLast.reverse := by
      conv_lhs => rw [← List.dropLast_append_getLast hbne]
      rw [List.reverse_append]
      rfl
    rw [hrev]
    rfl

theorem projOn_map_const_nil (id : InboundSessionId) (v : InboundSend) :
    ∀ (table : List (InboundSessionId × List Payload)),
      id ∉ table.map Prod.fst →
      projOn id (table.map (fun e => (e.1, v))) = [] := by
  intro table
  induction table with
  | nil => intro _; rfl
  | cons e rest ih =>
    intro hid
    simp only [List.map_cons, List.mem_cons] at hid
    push_neg at hid
    rw [List.map_cons, projOn_cons_ne id e.1 v _ (Ne.symm hid.1)]
    exact ih hid.2

theorem projOn_map_const (id : InboundSessionId) (v : InboundSend) :
    ∀ (table : List (InboundSessionId × List Payload)),
      (table.map Prod.fst).Nodup → id ∈ table.map Prod.fst →
      projOn id (table.map (fun e => (e.1, v))) = [v] := by
  intro table
  induction table with
  | nil => intro _ hid; simp at hid
  | cons e rest ih =>
    intro hnd hid
    have hnd' : (rest.map Prod.fst).Nodup := by
      simp only [List.map_cons, List.nodup_cons] at hnd
      exact hnd.2
    have hsid : e.1 ∉ rest.map Prod.fst := by
      simp only [List.map_cons, List.nodup_cons] at hnd
      exact hnd.1
    rcases List.mem_cons.mp hid with rfl | hid'
    · rw [List.map_cons, projOn_cons_self,
        projOn_map_const_nil e.1 v rest hsid]
    · have hne' : e.1 ≠ id := fun he => hsid (he ▸ hid')
      rw [List.map_cons, projOn_cons_ne id e.1 v _ hne']
      exact ih hnd' hid'

/-- C6: for every claimed inbound session with a buffer of
`num_messages_per_session` payloads, the feed loop sends on that session
exactly one stream-start control message, then exactly the buffered
payloads one by one (from the end of the buffer, hence in reverse order),
and finally exactly one close; nothing is sent on the session after the
close — its projection of the call log ends with `closeSession`. -/
theorem C6_session_feed_lifecycle (args : Args)
    (table : List (InboundSessionId × List Payload))
    (id : InboundSessionId) (buf : List Payload)
    (hnd : (table.map Prod.fst).Nodup) (hmem : (id, buf) ∈ table)
    (hlen : buf.length = args.num_messages_per_session) :
    projOn id (send_data_to_inbound_sessions args table) =
      InboundSend.startMsg
          ⟨args.num_messages_per_session, args.message_size⟩ ::
        (buf.reverse.map InboundSend.contentMsg ++
          [InboundSend.closeSession]) := by
  rw [send_data_to_inbound_sessions, projOn_append,
    projOn_map_const id _ table hnd (List.mem_map_of_mem Prod.fst hmem),
    drainLoop_proj buf.length table id buf rfl hmem hnd]
  rfl

/-- Witness for C6: a table with one claimed session (id 4) holding the
two one-byte payloads of a two-message configuration. -/
theorem C6_session_feed_lifecycle_witness :
    projOn 4 (send_data_to_inbound_sessions ⟨false, 1, 0, 0, 2, 1⟩
        [(4, [[1], [1]])]) =
      InboundSend.startMsg ⟨2, 1⟩ ::
        (([[1], [1]] : List Payload).reverse.map InboundSend.contentMsg ++
          [InboundSend.closeSession]) :=
  C6_session_feed_lifecycle ⟨false, 1, 0, 0, 2, 1⟩ [(4, [[1], [1]])] 4
    [[1], [1]] (by decide) (by decide) (by decide)

theorem breakCond_cons (c0 : Bool) (e : TraceEntry) (tr : List TraceEntry)
    (d : ℕ) :
    breakCond c0 (e :: tr) (d + 1) ↔
      breakCond (c0 || isConnectionEstablished e) tr d := by
  simp [breakCond, List.take_succ_cons, Bool.or_assoc]

theorem breakCond_zero (c0 : Bool) (e : TraceEntry) (tr : List TraceEntry) :
    breakCond c0 (e :: tr) 0 ↔
      ((c0 || isConnectionEstablished e) = true ∧ e.numPeersAfter = 0) := by
  simp [breakCond, List.take_succ_cons]

theorem runLoop_spec (args : Args) :
    ∀ (tr : List TraceEntry) (s : BenchState) (i0 : ℕ),
      (∀ (k : ℕ) (s' : BenchState),
        runLoop args s i0 tr = .exited k s' →
        ∃ d, k = i0 + d ∧ breakCond s.connected_in_the_past tr d ∧
          ∀ d' < d, ¬ breakCond s.connected_in_the_past tr d') ∧
      (∀ s' : BenchState, runLoop args s i0 tr = .pending s' →
        ∀ d < tr.length, ¬ breakCond s.connected_in_the_past tr d) ∧
      (∀ k : ℕ, runLoop args s i0 tr = .panicked k →
        ∃ d, k = i0 + d ∧
          ∀ d' < d, ¬ breakCond s.connected_in_the_past tr d') := by
  intro tr
  induction tr with
  | nil =>
    intro s i0
    refine ⟨?_, ?_, ?_⟩
    · intro k s' h; simp [runLoop] at h
    · intro s' h d hd
      rw [List.length_nil] at hd
      omega
    · intro k h; simp [runLoop] at h
  | cons e tr ih =>
    intro s i0
    cases hst : step args s e with
    | none =>
      have hrl : runLoop args s i0 (e :: tr) = .panicked i0 := by
        simp [runLoop, hst]
      refine ⟨?_, ?_, ?_⟩
      · intro k s' h; rw [hrl] at h; cases h
      · intro s' h; rw [hrl] at h; cases h
      · intro k h
        rw [hrl] at h
        injection h with hk
        exact ⟨0, by omega, fun d' hd' => absurd hd' (by omega)⟩
    | some s1 =>
      have hconn := (step_frame args s e s1 hst).2.1
      by_cases hbr : s1.connected_in_the_past = true ∧ e.numPeersAfter = 0
      · have hrl : runLoop args s i0 (e :: tr) = .exited i0 s1 := by
          simp only [runLoop, hst]
          rw [if_pos ⟨hbr.1, hbr.2⟩]
        refine ⟨?_, ?_, ?_⟩
        · intro k s' h
          rw [hrl] at h
          injection h with hk hs'
          refine ⟨0, by omega, ?_, fun d' hd' => absurd hd' (by omega)⟩
          rw [breakCond_zero]
          exact ⟨by rw [← hconn]; exact hbr.1, hbr.2⟩
        · intro s' h; rw [hrl] at h; cases h
        · intro k h; rw [hrl] at h; cases h
      · have hrl : runLoop args s i0 (e :: tr) =
            runLoop args s1 (i0 + 1) tr := by
          simp only [runLoop, hst]
          rw [if_neg (fun hc => hbr ⟨hc.1, hc.2⟩)]
        obtain ⟨ihex, ihpe, ihpa⟩ := ih s1 (i0 + 1)
        have hnot0 : ¬ breakCond s.connected_in_the_past (e :: tr) 0 := by
          rw [breakCond_zero]
          rintro ⟨h1, h2⟩
          exact hbr ⟨by rw [hconn]; exact h1, h2⟩
        refine ⟨?_, ?_, ?_⟩
        · intro k s' h
          rw [hrl] at h
          obtain ⟨d, hk, hbc, hmin⟩ := ihex k s' h
          refine ⟨d + 1, by omega, ?_, ?_⟩
          · rw [breakCond_cons, ← hconn]
            exact hbc
          · intro d' hd'
            cases d' with
            | zero => exact hnot0
            | succ d2 =>
              rw [breakCond_cons, ← hconn]
              exact hmin d2 (by omega)
        · intro s' h
          rw [hrl] at h
          intro d hd
          cases d with
          | zero => exact hnot0
          | succ d2 =>
            rw [breakCond_cons, ← hconn]
            refine ihpe s' h d2 ?_
            rw [List.length_cons] at hd
            omega
        · intro k h
          rw [hrl] at h
          obtain ⟨d, hk, hmin⟩ := ihpa k h
          refine ⟨d + 1, by omega, ?_⟩
          intro d' hd'
          cases d' with
          | zero => exact hnot0
          | succ d2 =>
            rw [breakCond_cons, ← hconn]
            exact hmin d2 (by omega)

/-- C9: the event loop exits exactly at the break condition: whenever the
loop exits after handling the event at index `i`, a connection-established
event occurred at some index `≤ i` and the peer count reported after
entry `i` was zero, and no earlier index satisfied this; whenever the loop
drains the stream or panics first, no handled index satisfied the
condition — in particular, before any connection has ever been
established (`breakCond false` requires a connection-established event in
the prefix) the loop never exits on the peer-count condition. -/
theorem C9_exit_iff_connected_and_no_peers (args : Args)
    (tr : List TraceEntry) :
    (∀ (i : ℕ) (s' : BenchState),
      runLoop args (initState args) 0 tr = .exited i s' →
      breakCond false tr i ∧ ∀ j < i, ¬ breakCond false tr j) ∧
    (∀ s' : BenchState, runLoop args (initState args) 0 tr = .pending s' →
      ∀ j < tr.length, ¬ breakCond false tr j) ∧
    (∀ i : ℕ, runLoop args (initState args) 0 tr = .panicked i →
      ∀ j < i, ¬ breakCond false tr j) := by
  obtain ⟨hex, hpe, hpa⟩ := runLoop_spec args tr (initState args) 0
  have hc : (initState args).connected_in_the_past = false := rfl
  rw [hc] at hex hpe hpa
  refine ⟨?_, hpe, ?_⟩
  · intro i s' h
    obtain ⟨d, hd, hbc, hmin⟩ := hex i s' h
    have hdi : d = i := by omega
    subst hdi
    exact ⟨hbc, hmin⟩
  · intro i h j hj
    obtain ⟨d, hd, hmin⟩ := hpa i h
    exact hmin j (by omega)

/-- Witness for C9: a single connection-established event after which the
reported peer count is zero makes the loop exit at index 0, and the break
condition holds there. -/
theorem C9_exit_iff_connected_and_no_peers_witness :
    breakCond false [⟨.connectionEstablished 7, 0, 0⟩] 0 ∧
    ∀ j < 0, ¬ breakCond false [⟨.connectionEstablished 7, 0, 0⟩] j :=
  (C9_exit_iff_connected_and_no_peers ⟨false, 0, 1, 0, 0, 0⟩
      [⟨.connectionEstablished 7, 0, 0⟩]).1 0
    ⟨⟨[], 0, []⟩, [], true, [], [7], [], [], 0⟩ (by decide)

/-- C7: `pretty_size` keeps dividing by 1024 while the value is at least
1024, stepping through the binary units B, KB, MB, GB, TB (the number `k`
of divisions below satisfies `1024 ^ (j+1) ≤ q` for every performed
division `j < k`, and the loop stops as soon as the value is below 1024 or
the units are exhausted), prints two fixed decimal places followed by the
unit, and in particular maps `0` to `"0.00 B"`, `1536` to `"1.50 KB"` and
`1073741824` to `"1.00 GB"`. -/
theorem C7_pretty_size_binary_units :
    pretty_size 0 = "0.00 B" ∧ pretty_size 1536 = "1.50 KB" ∧
    pretty_size 1073741824 = "1.00 GB" ∧
    ∀ q : ℚ, 0 ≤ q → ∃ k : ℕ, k ≤ 4 ∧
      pretty_size q = fmtFixed2 (q / 1024 ^ k) ++ " " ++ unitName k ∧
      (∀ j : ℕ, j < k → 1024 ^ (j + 1) ≤ q) ∧
      (k < 4 → q < 1024 ^ (k + 1)) := by
  refine ⟨?_, ?_, ?_, ?_⟩
  · simp only [pretty_size, prettySizeAux]
    rw [if_pos (by norm_num : (0 : ℚ) < 1024),
      fmtFixed2_eq 0 0 (by rw [round_eq]; norm_num)]
    decide
  · simp only [pretty_size, prettySizeAux]
    rw [if_neg (by norm_num : ¬ (1536 : ℚ) < 1024),
      if_pos (by norm_num : (1536 : ℚ) / 1024 < 1024),
      fmtFixed2_eq ((1536 : ℚ) / 1024) 150 (by rw [round_eq]; norm_num)]
    decide
  · simp only [pretty_size, prettySizeAux]
    rw [if_neg (by norm_num : ¬ (1073741824 : ℚ) < 1024),
      if_neg (by norm_num : ¬ (1073741824 : ℚ) / 1024 < 1024),
      if_neg (by norm_num : ¬ (1073741824 : ℚ) / 1024 / 1024 < 1024),
      if_pos (by norm_num : (1073741824 : ℚ) / 1024 / 1024 / 1024 < 1024),
      fmtFixed2_eq ((1073741824 : ℚ) / 1024 / 1024 / 1024) 100
        (by rw [round_eq]; norm_num)]
    decide
  intro q _
  have h1024 : (0 : ℚ) < 1024 := by norm_num
  by_cases h1 : q < 1024
  · refine ⟨0, by norm_num, ?_, ?_, ?_⟩
    · simp only [pretty_size, prettySizeAux]
      rw [if_pos h1]
      norm_num [unitName]
    · intro j hj; omega
    · intro _; simpa using h1
  by_cases h2 : q < 1024 ^ 2
  · have hd : q / 1024 < 1024 := by
      rw [div_lt_iff₀ h1024]
      norm_num at h2 ⊢
      linarith
    refine ⟨1, by norm_num, ?_, ?_, ?_⟩
    · simp only [pretty_size, prettySizeAux]
      rw [if_neg h1, if_pos hd]
      norm_num [unitName]
    · intro j hj
      interval_cases j
      simpa using not_lt.mp h1
    · intro _; simpa using h2
  have g1 : ¬ q / 1024 < 1024 := by
    rw [not_lt, le_div_iff₀ h1024]
    norm_num at h2 ⊢
    linarith
  have e2 : q / 1024 / 1024 = q / 1024 ^ 2 := by
    rw [div_div]; norm_num
  by_cases h3 : q < 1024 ^ 3
  · have hd : q / 1024 / 1024 < 1024 := by
      rw [e2, div_lt_iff₀ (by norm_num : (0:ℚ) < 1024 ^ 2)]
      norm_num at h3 ⊢
      linarith
    refine ⟨2, by norm_num, ?_, ?_, ?_⟩
    · simp only [pretty_size, prettySizeAux]
      rw [if_neg h1, if_neg g1, if_pos hd, e2]
      norm_num [unitName]
    · intro j hj
      interval_cases j
      · simpa using not_lt.mp h1
      · simpa using not_lt.mp h2
    · intro _; simpa using h3
  have g2 : ¬ q / 1024 / 1024 < 1024 := by
    rw [not_lt, e2, le_div_iff₀ (by norm_num : (0:ℚ) < 1024 ^ 2)]
    norm_num at h3 ⊢
    linarith
  have e3 : q / 1024 / 1024 / 1024 = q / 1024 ^ 3 := by
    rw [div_div, div_div]; norm_num
  by_cases h4 : q < 1024 ^ 4
  · have hd : q / 1024 / 1024 / 1024 < 1024 := by
      rw [e3, div_lt_iff₀ (by norm_num : (0:ℚ) < 1024 ^ 3)]
      norm_num at h4 ⊢
      linarith
    refine ⟨3, by norm_num, ?_, ?_, ?_⟩
    · simp only [pretty_size, prettySizeAux]
      rw [if_neg h1, if_neg g1, if_neg g2, if_pos hd, e3]
      norm_num [unitName]
    · intro j hj
      interval_cases j
      · simpa using not_lt.mp h1
      · simpa using not_lt.mp h2
      · simpa using not_lt.mp h3
    · intro _; simpa using h4
  have g3 : ¬ q / 1024 / 1024 / 1024 < 1024 := by
    rw [not_lt, e3, le_div_iff₀ (by norm_num : (0:ℚ) < 1024 ^ 3)]
    norm_num at h4 ⊢
    linarith
  have e4 : q / 1024 / 1024 / 1024 / 1024 = q / 1024 ^ 4 := by
    rw [div_div, div_div, div_div]; norm_num
  refine ⟨4, le_refl 4, ?_, ?_, ?_⟩
  · simp only [pretty_size, prettySizeAux]
    rw [if_neg h1, if_neg g1, if_neg g2, if_neg g3, e4]
    norm_num [unitName]
  · intro j hj
    interval_cases j
    · simpa using not_lt.mp h1
    · simpa using not_lt.mp h2
    · simpa using not_lt.mp h3
    · simpa using not_lt.mp h4
  · intro h; omega

/-- Witness for C7: the structural part applied at the concrete size 2048,
which lands in the KB range after one division. -/
theorem C7_pretty_size_binary_units_witness :
    ∃ k : ℕ, k ≤ 4 ∧
      pretty_size 2048 = fmtFixed2 ((2048 : ℚ) / 1024 ^ k) ++ " " ++ unitName k ∧
      (∀ j : ℕ, j < k → 1024 ^ (j + 1) ≤ (2048 : ℚ)) ∧
      (k < 4 → (2048 : ℚ) < 1024 ^ (k + 1)) :=
  C7_pretty_size_binary_units.2.2.2 2048 (by norm_num)

/-- C8: when `print` runs on a measurement whose `first_message_time` is
unset, it reports the "finished with no messages" outcome and stops: the
result is `SessionReport.noMessages`, which carries none of the
elapsed-time divisions performed by the `stats` branch. -/
theorem C8_print_no_first_message (m : OutboundSessionMeasurement)
    (now : Time) (h : m.first_message_time = none) :
    m.printReport now = SessionReport.noMessages := by
  unfold OutboundSessionMeasurement.printReport
  rw [h]

/-- Witness for C8: a freshly created measurement (no content ever
reported) yields the no-messages report. -/
theorem C8_print_no_first_message_witness :
    (OutboundSessionMeasurement.new 3).printReport 5 =
      SessionReport.noMessages :=
  C8_print_no_first_message (OutboundSessionMeasurement.new 3) 5 rfl

/-- Counterexample to C1: the benchmark with one expected connection and
one query per connection handles a connection, then two identical
stream-start frames for the created outbound session (at times 1 and 2).
The claim says the second frame is a no-op and none of the three fields
change, but the measurement stored for the session after the third event
differs from the one after the second (its `first_message_time` moved from
1 to 2). -/
theorem C1_counterexample :
    (runEvents ⟨false, 0, 1, 1, 0, 0⟩ (initState ⟨false, 0, 1, 1, 0, 0⟩)
        [⟨.connectionEstablished 7, 0, 1⟩,
         ⟨.receivedData 0 (some (.start ⟨5, 8⟩)), 1, 1⟩,
         ⟨.receivedData 0 (some (.start ⟨5, 8⟩)), 2, 1⟩]).map
        (fun s => hmFind s.gate.measurements 0) ≠
      (runEvents ⟨false, 0, 1, 1, 0, 0⟩ (initState ⟨false, 0, 1, 1, 0, 0⟩)
        [⟨.connectionEstablished 7, 0, 1⟩,
         ⟨.receivedData 0 (some (.start ⟨5, 8⟩)), 1, 1⟩]).map
        (fun s => hmFind s.gate.measurements 0) := by decide

/-- C1 as amended: `report_first_message` is last-write-wins, not
first-write-wins.  Every stream-start frame — including a second one for
the same session — overwrites all three fields, setting
`first_message_time` to the current time, so a second application erases
any trace of the first. -/
theorem C1_report_first_message_overwrites (m : OutboundSessionMeasurement)
    (s1 s2 : InboundSessionStart) (t1 t2 : Time) :
    (m.report_first_message s1 t1).report_first_message s2 t2 =
      m.report_first_message s2 t2 := rfl

end StreamedDataBenchmark
